import Mathlib

/-
Verification of the blogctl/photoblog generation engine (package `engine`):
post discovery, metadata/image merging, template compilation, rendering and
the Generate pipeline. Pure functions are translated directly; external
collaborators (filesystem listing, YAML parsing, image decoding, Go's
text/template parser, file writes) are modelled as explicit environment
functions, and the side effects of rendering are recorded as an action trace.
-/

set_option maxHeartbeats 1000000

namespace Blogctl

/-- Errors raised by the engine. The three named constructors carry the
messages from the source (`exception.New("not a directory")`,
`exception.New("no child files found")`, `exception.New("no images found")`,
each `.WithMessage(path)`); `external` wraps a failure of an external
collaborator (filesystem read, YAML unmarshal, image decode, template
parse), mirroring `exception.New(err)`. -/
inductive Err where
  | notADirectory (path : String)
  | noChildFiles (path : String)
  | noImagesFound (path : String)
  | external (msg : String)
deriving DecidableEq

/-- Name and modification time of a directory entry: the two fields of
`os.FileInfo` that the engine reads (`fi.Name()`, `fi.ModTime()`).
Times are modelled as `Nat`, with `0` in the role of Go's zero
`time.Time` (so `t.IsZero()` becomes `t = 0`). -/
structure FileInfo where
  name : String
  modTime : Nat
deriving DecidableEq

/-- A filesystem tree node, the input to the recursive walk
(`filepath.Walk`). Children appear in directory-listing order, the order
in which the listing collaborator yields them. -/
inductive Entry where
  | file (name : String) (modTime : Nat)
  | dir (name : String) (modTime : Nat) (children : List Entry)

def Entry.name : Entry → String
  | .file n _ => n
  | .dir n _ _ => n

def Entry.modTime : Entry → Nat
  | .file _ t => t
  | .dir _ t _ => t

def Entry.isDir : Entry → Bool
  | .file _ _ => false
  | .dir _ _ _ => true

/-- The name/modTime view of an entry, what `os.FileInfo` exposes of it. -/
def Entry.info (e : Entry) : FileInfo :=
  { name := e.name, modTime := e.modTime }

/-- Modelled from the spec: the directory-entry listing collaborator
(`GetFileInfos`, not under src/) "yields name + modification time" for each
child, in directory-listing order. -/
def Entry.infos (cs : List Entry) : List FileInfo :=
  cs.map Entry.info

/-- Modelled from the spec: `model.Image` (pkg/model, not under src/) is
"decoded image metadata (dimensions, format)". -/
structure Image where
  width : Nat
  height : Nat
  format : String
deriving DecidableEq

/-- The zero `model.Image` value. -/
def Image.empty : Image := { width := 0, height := 0, format := "" }

/-- `post.Image.IsZero()`: the image is "considered unset until
successfully populated", i.e. still the zero value. -/
def Image.isZero (i : Image) : Bool := i == Image.empty

/-- `model.Meta` (src/pkg/model/meta.go): posted timestamp, title,
location, comments, tags, extra key/value fields. -/
structure Meta where
  posted : Nat
  title : String
  location : String
  comments : String
  tags : List String
  extra : List (String × String)
deriving DecidableEq

/-- The zero `model.Meta` value. -/
def Meta.empty : Meta :=
  { posted := 0, title := "", location := "", comments := "", tags := [], extra := [] }

/-- Modelled from the spec: `model.Post` (pkg/model, not under src/):
`Original` path of the source image, `File` base filename, `Image` decoded
metadata, `Meta` optional structured metadata. -/
structure Post where
  original : String
  file : String
  image : Image
  meta : Meta
deriving DecidableEq

/-- The zero `model.Post` value (used for the empty `Previous`/`Next`). -/
def Post.empty : Post :=
  { original := "", file := "", image := Image.empty, meta := Meta.empty }

/-- Modelled from the spec: `TitleOrDefault` "returns `Meta.Title` if
non-empty, else a human-readable fallback derived from the source
folder/file name" (pkg/model, not under src/). -/
def Post.titleOrDefault (p : Post) : String :=
  if p.meta.title == "" then p.file else p.meta.title

/-- Modelled from the spec: `Slug` is "a deterministic, URL/filesystem-safe
string derived from `TitleOrDefault()`" (pkg/model, not under src/):
lower-cased with spaces replaced by dashes. -/
def Post.slug (p : Post) : String :=
  String.mk (p.titleOrDefault.data.map (fun c => if c == ' ' then '-' else c.toLower))

/-- Modelled from the spec: the layout section of the configuration
(pkg/config, not under src/), with defaults already resolved: page template
paths (`Layout.Pages`), the post template path (`PostOrDefault`), partial
fragment paths (`PartialsOrDefault`), static asset paths
(`StaticsOrDefault`). -/
structure Layout where
  pages : List String
  post : String
  fragments : List String
  statics : List String
deriving DecidableEq

/-- Modelled from the spec: the configuration (pkg/config, not under src/),
with defaults already resolved: images root (`ImagesOrDefault`), output
root (`OutputOrDefault`), and the layout. -/
structure Config where
  images : String
  output : String
  layout : Layout
deriving DecidableEq

/-- Modelled from the spec: `constants.ImageExtensions` (pkg/constants, not
under src/), the "configured allow-list of image extensions". -/
def imageExtensions : List String := [".jpg", ".jpeg", ".png", ".gif"]

/-- Modelled from the spec: `constants.DiscoveryFileMeta` (pkg/constants,
not under src/), the "specially-named metadata file (exact recognized
filename)". -/
def discoveryFileMeta : String := "meta.yml"

/-- Modelled from the spec: `constants.OutputFileIndex` (pkg/constants, not
under src/); post pages are written to `<output>/<slug>/index.html`. -/
def outputFileIndex : String := "index.html"

/-- Modelled from the spec: `HasExtension` (engine helpers, not under
src/), "file-extension recognition against a configured allow-list": the
name ends with one of the listed extensions. -/
def hasExtension (name : String) (exts : List String) : Bool :=
  exts.any (fun e => e.data.isSuffixOf name.data)

/-- `filepath.Join` for the two-component joins the engine performs (both
components non-empty, no trailing separators). -/
def joinPath (a b : String) : String := a ++ "/" ++ b

/-- The characters of the final path component: everything after the last
separator. -/
def basenameAux : List Char → List Char → List Char
  | [], acc => acc.reverse
  | c :: rest, acc =>
    if c == '/' then basenameAux rest [] else basenameAux rest (c :: acc)

/-- `filepath.Base` for the paths the engine produces (non-empty, no
trailing separator): the final path component. -/
def basename (p : String) : String := String.mk (basenameAux p.data [])

/-- A named template definition inside one shared Go template namespace;
the namespace's root (top-level) text is the definition named `""`. -/
structure TemplateDef where
  name : String
  body : String
deriving DecidableEq

/-- The result of Go's text/template parser on one source: a parse error,
or the named definitions the source contributes, in source order. A body of
`""` stands for Go's "only white space and comments" body. -/
inductive ParseResult where
  | err (msg : String)
  | ok (defs : List TemplateDef)

/-- The data payload of one template execution (`ViewModel`, referenced in
the engine source; its declaration is not under src/): the configuration,
the full post sequence for pages, and current/previous/next for posts. -/
structure ViewModel where
  config : Config
  posts : List Post
  post : Post
  previous : Post
  next : Post
deriving DecidableEq

/-- A recorded filesystem side effect of the pipeline: directory creation,
a template executed and written to a path with a view model, or a file
copy. -/
inductive Action where
  | makeDir (path : String)
  | writeTemplate (path : String) (vm : ViewModel)
  | copy (src : String) (dst : String)
deriving DecidableEq

/-- `os.Stat` result for the output path: whether it is a directory. -/
structure FileStat where
  isDir : Bool
deriving DecidableEq

/-- The external collaborators of the engine: YAML unmarshal (`ReadYAML`),
image decode (the file-level `ReadImage` helper), file read
(`ioutil.ReadFile`), the template parser (`Parse`), template write
(`os.Create` + `Execute`), directory creation (`MakeDir`), file copy
(`Copy`), the `os.Stat`/`MakeDir` results for the output path, and the
filesystem tree rooted at the configured images path. -/
structure Env where
  readYAML : String → Except Err Meta
  decodeImage : String → Except Err Image
  readFile : String → Except Err String
  parse : String → ParseResult
  write : String → Except Err Unit
  makeDir : String → Except Err Unit
  copy : String → String → Except Err Unit
  statOutput : Except Err FileStat
  mkdirOutput : Except Err Unit
  imagesRoot : Entry

/-- The per-file loop of `Engine.ReadImage`: the metadata file is
unmarshalled into `post.Meta`; a file with a recognized image extension,
while `post.Image` is still zero, sets `Original`/`File`/`modTime` and is
decoded into `post.Image`; other files are skipped. Returns the post under
construction together with the tracked modification time. -/
def readImageLoop (env : Env) (path : String) :
    List FileInfo → Post → Nat → Except Err (Post × Nat)
  | [], post, mt => .ok (post, mt)
  | fi :: rest, post, mt =>
    if fi.name == discoveryFileMeta then
      match env.readYAML (joinPath path fi.name) with
      | .error e => .error e
      | .ok m => readImageLoop env path rest { post with meta := m } mt
    else if hasExtension fi.name imageExtensions && post.image.isZero then
      match env.decodeImage (joinPath path fi.name) with
      | .error e => .error e
      | .ok img =>
        readImageLoop env path rest
          { post with original := joinPath path fi.name, file := fi.name, image := img }
          fi.modTime
    else
      readImageLoop env path rest post mt

/-- The body of `Engine.ReadImage` after the directory check, acting on
the folder's file listing: fail with "no child files found" on an empty
listing; run the per-file loop; default `Meta.Posted` to the tracked
modification time when zero; fail with "no images found" when no image
populated `Original`. -/
def readImageFiles (env : Env) (path : String) (files : List FileInfo) :
    Except Err Post :=
  if files.length == 0 then .error (.noChildFiles path)
  else
    match readImageLoop env path files Post.empty 0 with
    | .error e => .error e
    | .ok (post, mt) =>
      let post :=
        if post.meta.posted == 0 then { post with meta := { post.meta with posted := mt } }
        else post
      if post.original == "" then .error (.noImagesFound path)
      else .ok post

/-- `Engine.ReadImage`: reads post metadata from a folder. A non-directory
node fails with "not a directory"; a directory is processed from its file
listing. -/
def readImage (env : Env) (path : String) : Entry → Except Err Post
  | .file _ _ => .error (.notADirectory path)
  | .dir _ _ cs => readImageFiles env path (Entry.infos cs)

mutual

/-- `filepath.Walk` visit order from a node at a path: the node itself
first, then (when it is a directory) its children's subtrees in listing
order. Yields each visited path with its node. -/
def walkVisit (p : String) : Entry → List (String × Entry)
  | .file n t => [(p, .file n t)]
  | .dir n t cs => (p, .dir n t cs) :: walkChildren p cs

/-- `filepath.Walk` visit order over a directory's children. -/
def walkChildren (p : String) : List Entry → List (String × Entry)
  | [] => []
  | c :: rest => walkVisit (joinPath p c.name) c ++ walkChildren p rest

end

/-- The walk callback of `Engine.DiscoverPosts`, folded over the visit
order: the images root itself is skipped (`currentPath == imagesPath`),
every other directory is read as a post via `ReadImage`, files are
skipped; the first error aborts with that error. -/
def collectPosts (env : Env) (rootPath : String) :
    List (String × Entry) → Except Err (List Post)
  | [] => .ok []
  | (p, e) :: rest =>
    if p == rootPath then collectPosts env rootPath rest
    else
      match e with
      | .file _ _ => collectPosts env rootPath rest
      | .dir nm mt cs =>
        match readImage env p (.dir nm mt cs) with
        | .error err => .error err
        | .ok post =>
          match collectPosts env rootPath rest with
          | .error err => .error err
          | .ok posts => .ok (post :: posts)

/-- `Engine.DiscoverPosts`: walk the configured images root and read every
visited directory other than the root itself as a post. -/
def discoverPosts (env : Env) (cfg : Config) : Except Err (List Post) :=
  collectPosts env cfg.images (walkVisit cfg.images env.imagesRoot)

/-- `Engine.CreateOutputPath`: if `os.Stat` on the output path fails, the
result is that of `MakeDir` (`exception.New(MakeDir(out))`, and
`exception.New(nil)` is `nil`); if `os.Stat` succeeds the function returns
`nil` at once. -/
def createOutputPath (statResult : Except Err FileStat)
    (mkdirResult : Except Err Unit) : Except Err Unit :=
  match statResult with
  | .error _ => mkdirResult
  | .ok _ => .ok ()

/-- `Engine.ReadPartials`: read each configured fragment path in order,
returning the contents; the first read error aborts. -/
def readFragmentsList (env : Env) : List String → Except Err (List String)
  | [] => .ok []
  | p :: rest =>
    match env.readFile p with
    | .error e => .error e
    | .ok c =>
      match readFragmentsList env rest with
      | .error e => .error e
      | .ok cs => .ok (c :: cs)

/-- Adding one parsed definition to a Go template namespace (`Parse`
semantics since Go 1.6): a definition whose body is empty does not replace
an existing definition of the same name; otherwise the definition is
replaced in place, or appended when the name is new. -/
def addDef : List TemplateDef → TemplateDef → List TemplateDef
  | [], d => [d]
  | e :: rest, d =>
    if e.name == d.name then
      if d.body == "" then e :: rest
      else { e with body := d.body } :: rest
    else e :: addDef rest d

/-- Look up the body bound to a name in a template namespace. -/
def lookupDef : List TemplateDef → String → Option String
  | [], _ => none
  | e :: rest, n => if e.name == n then some e.body else lookupDef rest n

/-- `tmp.Parse` called once per partial source, in order, on one shared
namespace: the first parse error aborts, otherwise each source's
definitions are added in turn. -/
def parseSources (parse : String → ParseResult) :
    List TemplateDef → List String → Except Err (List TemplateDef)
  | ns, [] => .ok ns
  | ns, s :: rest =>
    match parse s with
    | .err m => .error (.external m)
    | .ok ds => parseSources parse (ds.foldl addDef ns) rest

/-- `Engine.CompileTemplate`: read the main template file, parse every
partial first (in the order given) into one namespace, then parse the main
template source last; any read or parse failure aborts with that error. -/
def compileTemplate (env : Env) (templatePath : String)
    (fragments : List String) : Except Err (List TemplateDef) :=
  match env.readFile templatePath with
  | .error e => .error e
  | .ok contents =>
    match parseSources env.parse [] fragments with
    | .error e => .error e
    | .ok ns =>
      match env.parse contents with
      | .err m => .error (.external m)
      | .ok ds => .ok (ds.foldl addDef ns)

/-- The page loop of `Engine.Render`: for each configured page template,
compile it with the partials and write it to
`<output>/<page-basename>` against a view model holding the full post
sequence; the first failure aborts with that error, actions performed so
far are kept. -/
def renderPages (env : Env) (cfg : Config) (frs : List String)
    (posts : List Post) : List String → List Action × Option Err
  | [] => ([], none)
  | pagePath :: rest =>
    match compileTemplate env pagePath frs with
    | .error e => ([], some e)
    | .ok _ =>
      let outPath := joinPath cfg.output (basename pagePath)
      match env.write outPath with
      | .error e => ([], some e)
      | .ok _ =>
        let (acts, res) := renderPages env cfg frs posts rest
        (Action.writeTemplate outPath
            { config := cfg, posts := posts, post := Post.empty,
              previous := Post.empty, next := Post.empty } :: acts,
          res)

/-- The post loop of `Engine.Render` (`for index, post := range posts`):
make the slug directory, take `previous` from index `i-1` when `i > 0` and
`next` from `i+1` when `i < len(posts)-1` (else the zero post), write the
post template to `<slug-dir>/index.html` against the current/previous/next
view model, then copy the original image beside it under its base name;
the first failure aborts, keeping the actions already performed. -/
def renderPosts (env : Env) (cfg : Config) (all : List Post) :
    Nat → List Post → List Action × Option Err
  | _, [] => ([], none)
  | idx, post :: rest =>
    let slugPath := joinPath cfg.output post.slug
    match env.makeDir slugPath with
    | .error e => ([], some e)
    | .ok _ =>
      let previous := if idx > 0 then all.getD (idx - 1) Post.empty else Post.empty
      let next := if idx < all.length - 1 then all.getD (idx + 1) Post.empty else Post.empty
      let outPath := joinPath slugPath outputFileIndex
      let vm : ViewModel :=
        { config := cfg, posts := [], post := post, previous := previous, next := next }
      match env.write outPath with
      | .error e => ([Action.makeDir slugPath], some e)
      | .ok _ =>
        let copyDst := joinPath slugPath (basename post.original)
        match env.copy post.original copyDst with
        | .error e =>
          ([Action.makeDir slugPath, Action.writeTemplate outPath vm], some e)
        | .ok _ =>
          let (acts, res) := renderPosts env cfg all (idx + 1) rest
          (Action.makeDir slugPath :: Action.writeTemplate outPath vm ::
              Action.copy post.original copyDst :: acts,
            res)

/-- `Engine.Render`: read the partials, render every configured page, then
compile the post template once and run the post loop over the sequence;
the first failure aborts with that error, keeping prior actions. -/
def render (env : Env) (cfg : Config) (posts : List Post) :
    List Action × Option Err :=
  match readFragmentsList env cfg.layout.fragments with
  | .error e => ([], some e)
  | .ok frs =>
    match renderPages env cfg frs posts cfg.layout.pages with
    | (acts, some e) => (acts, some e)
    | (acts, none) =>
      match compileTemplate env cfg.layout.post frs with
      | .error e => (acts, some e)
      | .ok _ =>
        let (acts2, res) := renderPosts env cfg posts 0 posts
        (acts ++ acts2, res)

/-- `Engine.CopyStatics`: copy each configured static path to the output
directory, aborting on the first failure. -/
def copyStatics (env : Env) (cfg : Config) : List String → List Action × Option Err
  | [] => ([], none)
  | s :: rest =>
    match env.copy s cfg.output with
    | .error e => ([], some e)
    | .ok _ =>
      let (acts, res) := copyStatics env cfg rest
      (Action.copy s cfg.output :: acts, res)

/-- `Engine.Generate`: discover posts, create the output path, render, and
copy statics, in that order; each step's failure aborts immediately with
that step's error. -/
def generate (env : Env) (cfg : Config) : List Action × Option Err :=
  match discoverPosts env cfg with
  | .error e => ([], some e)
  | .ok posts =>
    match createOutputPath env.statOutput env.mkdirOutput with
    | .error e => ([], some e)
    | .ok _ =>
      match render env cfg posts with
      | (acts, some e) => (acts, some e)
      | (acts, none) =>
        let (acts2, res) := copyStatics env cfg cfg.layout.statics
        (acts ++ acts2, res)

/-- One resolution step for a name against one parsed definition: a
matching definition binds the name, except that an empty body does not
replace an existing binding. -/
def resolveStep (n : String) (acc : Option String) (d : TemplateDef) : Option String :=
  if d.name == n then
    match acc with
    | some b => if d.body == "" then some b else some d.body
    | none => some d.body
  else acc

/-- Resolution of a name over a sequence of parsed definitions, starting
from an accumulator. -/
def resolveAux (n : String) : List TemplateDef → Option String → Option String
  | [], acc => acc
  | d :: ds, acc => resolveAux n ds (resolveStep n acc d)

/-- All definitions contributed by a list of sources under a parser, in
source order (sources that fail to parse contribute nothing; they are only
consulted when every parse succeeded). -/
def fragmentDefs (parse : String → ParseResult) : List String → List TemplateDef
  | [] => []
  | s :: rest =>
    (match parse s with
     | .ok ds => ds
     | .err _ => []) ++ fragmentDefs parse rest

/-- The three output actions the post loop performs for the post at one
index: create the slug directory, write the post page to
`<output>/<slug>/index.html` against the current/previous/next view
model, and copy the original image to `<output>/<slug>/<original-basename>`. -/
def postActionsAt (cfg : Config) (all : List Post) (idx : Nat) (post : Post) :
    List Action :=
  [Action.makeDir (joinPath cfg.output post.slug),
   Action.writeTemplate (joinPath (joinPath cfg.output post.slug) outputFileIndex)
     { config := cfg, posts := [], post := post,
       previous := if idx > 0 then all.getD (idx - 1) Post.empty else Post.empty,
       next := if idx < all.length - 1 then all.getD (idx + 1) Post.empty else Post.empty },
   Action.copy post.original
     (joinPath (joinPath cfg.output post.slug) (basename post.original))]

/-- The full output trace of the post loop from an index onward. -/
def postOutputActions (cfg : Config) (all : List Post) :
    Nat → List Post → List Action
  | _, [] => []
  | idx, post :: rest =>
    postActionsAt cfg all idx post ++ postOutputActions cfg all (idx + 1) rest

/-- Number of immediate child directories of a node. -/
def immediateSubdirCount : Entry → Nat
  | .file _ _ => 0
  | .dir _ _ cs => (cs.filter Entry.isDir).length

mutual

/-- Number of directory nodes in a subtree, the subtree's own root
included when it is a directory. -/
def dirCountEntry : Entry → Nat
  | .file _ _ => 0
  | .dir _ _ cs => 1 + dirCountList cs

/-- Number of directory nodes, at every depth, in a forest. -/
def dirCountList : List Entry → Nat
  | [] => 0
  | c :: rest => dirCountEntry c + dirCountList rest

end

/-- Number of directory nodes strictly below a root node. -/
def dirCountBelow : Entry → Nat
  | .file _ _ => 0
  | .dir _ _ cs => dirCountList cs

/- Concrete fixtures used by witnesses and counterexamples. -/

/-- A concrete decoded image. -/
def img23 : Image := { width := 2, height := 3, format := "jpeg" }

/-- A concrete metadata value with a non-zero posted timestamp. -/
def meta9 : Meta := { Meta.empty with posted := 9 }

/-- A parser for the template fixtures: source "A" defines block "x" with
body "1", source "B" redefines block "x" with body "2", everything else
parses to no definitions. -/
def exParse : String → ParseResult := fun s =>
  if s == "A" then .ok [{ name := "x", body := "1" }]
  else if s == "B" then .ok [{ name := "x", body := "2" }]
  else .ok []

/-- A concrete environment: YAML reads yield `meta9`, image decodes yield
`img23`, file reads yield empty sources, all writes succeed, and the
images root holds one immediate subdirectory `a` which itself contains an
image and a nested subdirectory `a/b` with its own image. -/
def exEnv : Env :=
  { readYAML := fun _ => .ok meta9
    decodeImage := fun _ => .ok img23
    readFile := fun _ => .ok ""
    parse := fun _ => .ok []
    write := fun _ => .ok ()
    makeDir := fun _ => .ok ()
    copy := fun _ _ => .ok ()
    statOutput := .ok { isDir := true }
    mkdirOutput := .ok ()
    imagesRoot := .dir "images" 0
      [.dir "a" 0 [.file "x.jpg" 5, .dir "b" 0 [.file "y.jpg" 7]]] }

/-- The fixture environment with the redefinition-exercising parser. -/
def exEnvC3 : Env := { exEnv with parse := exParse }

/-- The fixture environment with an images root whose only post folder is
empty, so that discovery fails. -/
def exEnvFail : Env :=
  { exEnv with imagesRoot := .dir "images" 0 [.dir "empty" 0 []] }

/-- A concrete configuration: images root `images`, output root `out`, one
page template, a post template, no partials, no statics. -/
def exCfg : Config :=
  { images := "images", output := "out",
    layout := { pages := ["layout/index.html"], post := "layout/post.html",
                fragments := [], statics := [] } }

/-- The post read from the fixture listing that contains a metadata file
(so `meta9` wins). -/
def postA : Post :=
  { original := "images/a/x.jpg", file := "x.jpg", image := img23, meta := meta9 }

/-- The post discovered from fixture folder `images/a` (no metadata file:
posted defaults to the image's modification time 5). -/
def postA5 : Post :=
  { original := "images/a/x.jpg", file := "x.jpg", image := img23,
    meta := { Meta.empty with posted := 5 } }

/-- The post discovered from fixture folder `images/a/b` (no metadata
file: posted defaults to the image's modification time 7). -/
def postB7 : Post :=
  { original := "images/a/b/y.jpg", file := "y.jpg", image := img23,
    meta := { Meta.empty with posted := 7 } }

/-
Theorems.
-/

/-- C2 (counterexample): with an output path that exists (`os.Stat`
succeeds) but is not a directory, `CreateOutputPath` returns success,
even though creating the directory would have failed — it does not return
any error, contrary to the claim that an existing non-directory output
path yields an `OutputPathError`. -/
theorem createOutputPath_exists_not_dir_succeeds :
    createOutputPath (.ok { isDir := false }) (.error (.external "mkdir failed")) =
      .ok () := rfl

/-- C2 (amended): `CreateOutputPath` returns success whenever the output
path exists — whether or not it is a directory — and only when `os.Stat`
fails does it attempt creation, returning exactly the `MakeDir` result. -/
theorem createOutputPath_spec (st : FileStat) (e : Err) (mk : Except Err Unit) :
    createOutputPath (.ok st) mk = .ok () ∧ createOutputPath (.error e) mk = mk :=
  ⟨rfl, rfl⟩

theorem lookupDef_addDef (ns : List TemplateDef) (d : TemplateDef) (n : String) :
    lookupDef (addDef ns d) n = resolveStep n (lookupDef ns n) d := by
  obtain ⟨dn, db⟩ := d
  induction ns with
  | nil => simp [addDef, lookupDef, resolveStep]
  | cons e rest ih =>
    obtain ⟨en, eb⟩ := e
    by_cases he : en = dn
    · subst he
      by_cases hb : db = ""
      · subst hb
        by_cases hn : en = n
        · subst hn
          simp [addDef, lookupDef, resolveStep]
        · simp [addDef, lookupDef, resolveStep, hn]
      · by_cases hn : en = n
        · subst hn
          simp [addDef, lookupDef, resolveStep, hb]
        · simp [addDef, lookupDef, resolveStep, hn, hb]
    · by_cases hn : en = n
      · subst hn
        have hdn : dn ≠ en := fun hc => he hc.symm
        simp [addDef, lookupDef, resolveStep, he, hdn]
      · simp [addDef, lookupDef, he, hn, ih]

theorem lookupDef_foldl (ds : List TemplateDef) (ns : List TemplateDef) (n : String) :
    lookupDef (ds.foldl addDef ns) n = resolveAux n ds (lookupDef ns n) := by
  induction ds generalizing ns with
  | nil => rfl
  | cons d ds ih => simp [List.foldl, resolveAux, ih, lookupDef_addDef]

theorem resolveAux_append (n : String) (l1 l2 : List TemplateDef) (acc : Option String) :
    resolveAux n (l1 ++ l2) acc = resolveAux n l2 (resolveAux n l1 acc) := by
  induction l1 generalizing acc with
  | nil => rfl
  | cons d l1 ih => simp [resolveAux, ih]

theorem parseSources_eq (parse : String → ParseResult) :
    ∀ (frs : List String) (ns out : List TemplateDef),
      parseSources parse ns frs = .ok out →
      out = (fragmentDefs parse frs).foldl addDef ns := by
  intro frs
  induction frs with
  | nil => intro ns out h; cases h; rfl
  | cons s rest ih =>
    intro ns out h
    simp only [parseSources] at h
    cases hp : parse s with
    | err m => rw [hp] at h; simp at h
    | ok ds =>
      rw [hp] at h
      have := ih _ _ h
      simp only [fragmentDefs, hp, List.foldl_append]
      exact this

/-- C3 (counterexample): with partial sources `A` (defining block `x` with
body `1`) and `B` (redefining block `x` with body `2`), compilation
succeeds — no compile error is raised — and the later definition has
silently replaced the earlier one in the shared namespace. -/
theorem compileTemplate_redefinition_no_error :
    compileTemplate exEnvC3 "main" ["A", "B"] = .ok [⟨"x", "2"⟩] := rfl

/-- C3 (amended): `CompileTemplate` parses all partials first, in the
order given, into one shared namespace, then parses the main template
last; a later source that redefines a named block with a non-empty body
silently replaces the earlier definition rather than raising a compile
error (and an empty-body redefinition leaves the earlier body in place):
each name resolves to the outcome of scanning all definitions in that
order. -/
theorem compileTemplate_order (env : Env) (path : String) (frs : List String)
    (contents : String) (dsMain ns : List TemplateDef)
    (h1 : env.readFile path = .ok contents)
    (h2 : parseSources env.parse [] frs = .ok ns)
    (h3 : env.parse contents = .ok dsMain) :
    compileTemplate env path frs = .ok (dsMain.foldl addDef ns) ∧
    ∀ n, lookupDef (dsMain.foldl addDef ns) n =
      resolveAux n (fragmentDefs env.parse frs ++ dsMain) none := by
  constructor
  · simp only [compileTemplate, h1, h2, h3]
  · intro n
    rw [lookupDef_foldl, parseSources_eq env.parse frs [] ns h2, lookupDef_foldl,
      resolveAux_append]
    rfl

/-- C3 (witness): the amended theorem applied to the concrete
redefinition fixture. -/
theorem compileTemplate_order_witness :
    compileTemplate exEnvC3 "main" ["A", "B"] =
      .ok (List.foldl addDef [⟨"x", "2"⟩] []) ∧
    lookupDef (List.foldl addDef [⟨"x", "2"⟩] []) "x" =
      resolveAux "x" (fragmentDefs exEnvC3.parse ["A", "B"] ++ []) none := by
  have h := compileTemplate_order exEnvC3 "main" ["A", "B"] "" [] [⟨"x", "2"⟩]
    rfl rfl rfl
  exact ⟨h.1, h.2 "x"⟩

theorem joinPath_ne_empty (p n : String) : joinPath p n ≠ "" := by
  intro h
  have hl := congrArg String.length h
  simp only [joinPath, String.length_append] at hl
  rw [show ("/" : String).length = 1 from rfl,
    show ("" : String).length = 0 from rfl] at hl
  omega

theorem metaNotImage : hasExtension discoveryFileMeta imageExtensions = false := by
  decide

theorem emptyImage_isZero : Image.empty.isZero = true := by decide

theorem readImageLoop_append (env : Env) (path : String) (l1 l2 : List FileInfo)
    (s : Post) (mt : Nat) :
    readImageLoop env path (l1 ++ l2) s mt =
      match readImageLoop env path l1 s mt with
      | .error e => .error e
      | .ok (q, m) => readImageLoop env path l2 q m := by
  induction l1 generalizing s mt with
  | nil => rfl
  | cons fi l1 ih =>
    simp only [List.cons_append, readImageLoop]
    by_cases h1 : fi.name == discoveryFileMeta
    · simp only [h1, if_true]
      cases env.readYAML (joinPath path fi.name) with
      | error e => rfl
      | ok m => exact ih _ _
    · simp only [h1, Bool.false_eq_true, if_false]
      by_cases h2 : hasExtension fi.name imageExtensions && s.image.isZero
      · simp only [h2, if_true]
        cases env.decodeImage (joinPath path fi.name) with
        | error e => rfl
        | ok img => exact ih _ _
      · simp only [h2, Bool.false_eq_true, if_false]
        exact ih _ _

theorem loopNoImage (env : Env) (path : String) :
    ∀ (fis : List FileInfo) (s : Post) (mt : Nat),
      (∀ fi ∈ fis, hasExtension fi.name imageExtensions = false) →
      (∀ fi ∈ fis, fi.name = discoveryFileMeta →
        ∃ m, env.readYAML (joinPath path fi.name) = .ok m) →
      ∃ q, readImageLoop env path fis s mt = .ok (q, mt) ∧
        q.original = s.original ∧ q.file = s.file ∧ q.image = s.image := by
  intro fis
  induction fis with
  | nil => intro s mt _ _; exact ⟨s, rfl, rfl, rfl, rfl⟩
  | cons fi rest ih =>
    intro s mt h1 h2
    simp only [readImageLoop]
    by_cases hm : fi.name == discoveryFileMeta
    · obtain ⟨m, hy⟩ := h2 fi (List.mem_cons_self _ _) (by
        rw [beq_iff_eq] at hm; exact hm)
      simp only [hm, if_true, hy]
      obtain ⟨q, hq, ho, hf, hi⟩ := ih { s with meta := m } mt
        (fun a ha => h1 a (List.mem_cons_of_mem _ ha))
        (fun a ha => h2 a (List.mem_cons_of_mem _ ha))
      exact ⟨q, hq, ho, hf, hi⟩
    · have hext : hasExtension fi.name imageExtensions = false :=
        h1 fi (List.mem_cons_self _ _)
      simp only [hm, Bool.false_eq_true, if_false, hext, Bool.false_and,
        Bool.false_eq_true]
      exact ih s mt (fun a ha => h1 a (List.mem_cons_of_mem _ ha))
        (fun a ha => h2 a (List.mem_cons_of_mem _ ha))

theorem loopImageSet (env : Env) (path : String) :
    ∀ (fis : List FileInfo) (s : Post) (mt : Nat),
      s.image.isZero = false →
      (∀ fi ∈ fis, fi.name = discoveryFileMeta →
        ∃ m, env.readYAML (joinPath path fi.name) = .ok m) →
      ∃ q, readImageLoop env path fis s mt = .ok (q, mt) ∧
        q.original = s.original ∧ q.file = s.file ∧ q.image = s.image := by
  intro fis
  induction fis with
  | nil => intro s mt _ _; exact ⟨s, rfl, rfl, rfl, rfl⟩
  | cons fi rest ih =>
    intro s mt hz h2
    simp only [readImageLoop]
    by_cases hm : fi.name == discoveryFileMeta
    · obtain ⟨m, hy⟩ := h2 fi (List.mem_cons_self _ _) (by
        rw [beq_iff_eq] at hm; exact hm)
      simp only [hm, if_true, hy]
      obtain ⟨q, hq, ho, hf, hi⟩ := ih { s with meta := m } mt hz
        (fun a ha => h2 a (List.mem_cons_of_mem _ ha))
      exact ⟨q, hq, ho, hf, hi⟩
    · simp only [hm, Bool.false_eq_true, if_false, hz, Bool.and_false,
        Bool.false_eq_true]
      exact ih s mt hz (fun a ha => h2 a (List.mem_cons_of_mem _ ha))

theorem loop_cons_meta_ok (env : Env) (path : String) (fi : FileInfo)
    (rest : List FileInfo) (s : Post) (mt : Nat) (m : Meta)
    (h : fi.name = discoveryFileMeta)
    (hy : env.readYAML (joinPath path fi.name) = .ok m) :
    readImageLoop env path (fi :: rest) s mt =
      readImageLoop env path rest { s with meta := m } mt := by
  have hb : (fi.name == discoveryFileMeta) = true := by simp [h]
  simp only [readImageLoop, hb, if_true, hy]

theorem loop_cons_meta_err (env : Env) (path : String) (fi : FileInfo)
    (rest : List FileInfo) (s : Post) (mt : Nat) (e : Err)
    (h : fi.name = discoveryFileMeta)
    (hy : env.readYAML (joinPath path fi.name) = .error e) :
    readImageLoop env path (fi :: rest) s mt = .error e := by
  have hb : (fi.name == discoveryFileMeta) = true := by simp [h]
  simp only [readImageLoop, hb, if_true, hy]

theorem loop_cons_image_ok (env : Env) (path : String) (fi : FileInfo)
    (rest : List FileInfo) (s : Post) (mt : Nat) (img : Image)
    (h1 : fi.name ≠ discoveryFileMeta)
    (h2 : (hasExtension fi.name imageExtensions && s.image.isZero) = true)
    (hd : env.decodeImage (joinPath path fi.name) = .ok img) :
    readImageLoop env path (fi :: rest) s mt =
      readImageLoop env path rest
        { s with original := joinPath path fi.name, file := fi.name, image := img }
        fi.modTime := by
  simp only [readImageLoop, beq_eq_false_iff_ne.mpr h1, Bool.false_eq_true,
    if_false, h2, if_true, hd]

theorem loop_cons_image_err (env : Env) (path : String) (fi : FileInfo)
    (rest : List FileInfo) (s : Post) (mt : Nat) (e : Err)
    (h1 : fi.name ≠ discoveryFileMeta)
    (h2 : (hasExtension fi.name imageExtensions && s.image.isZero) = true)
    (hd : env.decodeImage (joinPath path fi.name) = .error e) :
    readImageLoop env path (fi :: rest) s mt = .error e := by
  simp only [readImageLoop, beq_eq_false_iff_ne.mpr h1, Bool.false_eq_true,
    if_false, h2, if_true, hd]

theorem loop_cons_skip (env : Env) (path : String) (fi : FileInfo)
    (rest : List FileInfo) (s : Post) (mt : Nat)
    (h1 : fi.name ≠ discoveryFileMeta)
    (h2 : (hasExtension fi.name imageExtensions && s.image.isZero) = false) :
    readImageLoop env path (fi :: rest) s mt = readImageLoop env path rest s mt := by
  simp [readImageLoop, h1, h2]

theorem loopMetaPreserve (env : Env) (path : String) :
    ∀ (fis : List FileInfo) (s : Post) (mt : Nat) (q : Post) (mtq : Nat),
      (∀ fi ∈ fis, fi.name ≠ discoveryFileMeta) →
      readImageLoop env path fis s mt = .ok (q, mtq) → q.meta = s.meta := by
  intro fis
  induction fis with
  | nil =>
    intro s mt q mtq _ h
    simp only [readImageLoop, Except.ok.injEq, Prod.mk.injEq] at h
    rw [← h.1]
  | cons fi rest ih =>
    intro s mt q mtq hno h
    have hm : fi.name ≠ discoveryFileMeta := hno fi (List.mem_cons_self _ _)
    have hno2 : ∀ a ∈ rest, a.name ≠ discoveryFileMeta :=
      fun a ha => hno a (List.mem_cons_of_mem _ ha)
    cases hguard : (hasExtension fi.name imageExtensions && s.image.isZero) with
    | false =>
      rw [loop_cons_skip env path fi rest s mt hm hguard] at h
      exact ih s mt q mtq hno2 h
    | true =>
      cases hd : env.decodeImage (joinPath path fi.name) with
      | error e =>
        rw [loop_cons_image_err env path fi rest s mt e hm hguard hd] at h
        simp at h
      | ok img =>
        rw [loop_cons_image_ok env path fi rest s mt img hm hguard hd] at h
        exact ih ({ s with original := joinPath path fi.name, file := fi.name, image := img }) fi.modTime q mtq hno2 h

theorem loopMetaSet (env : Env) (path : String) (m : Meta)
    (hy : env.readYAML (joinPath path discoveryFileMeta) = .ok m) :
    ∀ (fis : List FileInfo) (s : Post) (mt : Nat) (q : Post) (mtq : Nat),
      (∃ fi ∈ fis, fi.name = discoveryFileMeta) →
      readImageLoop env path fis s mt = .ok (q, mtq) → q.meta = m := by
  intro fis
  induction fis with
  | nil =>
    rintro s mt q mtq ⟨fi, hfi, _⟩ h
    exact absurd hfi (List.not_mem_nil _)
  | cons fi rest ih =>
    rintro s mt q mtq hex h
    by_cases hm : fi.name = discoveryFileMeta
    · rw [loop_cons_meta_ok env path fi rest s mt m hm (by rw [hm]; exact hy)] at h
      by_cases hr : ∃ a ∈ rest, a.name = discoveryFileMeta
      · exact ih _ _ q mtq hr h
      · push_neg at hr
        have := loopMetaPreserve env path rest _ _ q mtq hr h
        rw [this]
    · obtain ⟨a, ha, hna⟩ := hex
      have ha2 : a ∈ rest := by
        rcases List.mem_cons.mp ha with h1 | h1
        · exact absurd (h1 ▸ hna) hm
        · exact h1
      cases hguard : (hasExtension fi.name imageExtensions && s.image.isZero) with
      | false =>
        rw [loop_cons_skip env path fi rest s mt hm hguard] at h
        exact ih s mt q mtq ⟨a, ha2, hna⟩ h
      | true =>
        cases hd : env.decodeImage (joinPath path fi.name) with
        | error e =>
          rw [loop_cons_image_err env path fi rest s mt e hm hguard hd] at h
          simp at h
        | ok img =>
          rw [loop_cons_image_ok env path fi rest s mt img hm hguard hd] at h
          exact ih _ _ q mtq ⟨a, ha2, hna⟩ h

theorem loopTrio (env : Env) (path : String) :
    ∀ (fis : List FileInfo) (s : Post) (mt : Nat) (q : Post) (mtq : Nat),
      readImageLoop env path fis s mt = .ok (q, mtq) →
      (q.original = s.original ∧ q.file = s.file ∧ mtq = mt) ∨
      (∃ fi ∈ fis, hasExtension fi.name imageExtensions = true ∧
        q.original = joinPath path fi.name ∧ q.file = fi.name ∧ mtq = fi.modTime) := by
  intro fis
  induction fis with
  | nil =>
    intro s mt q mtq h
    simp only [readImageLoop, Except.ok.injEq, Prod.mk.injEq] at h
    obtain ⟨h1, h2⟩ := h
    subst h1; subst h2
    exact Or.inl ⟨rfl, rfl, rfl⟩
  | cons fi rest ih =>
    intro s mt q mtq h
    by_cases hm : fi.name = discoveryFileMeta
    · cases hy : env.readYAML (joinPath path fi.name) with
      | error e =>
        rw [loop_cons_meta_err env path fi rest s mt e hm hy] at h
        simp at h
      | ok mv =>
        rw [loop_cons_meta_ok env path fi rest s mt mv hm hy] at h
        rcases ih _ _ q mtq h with ⟨h1, h2, h3⟩ | ⟨a, ha, h4⟩
        · left; exact ⟨h1, h2, h3⟩
        · right; exact ⟨a, List.mem_cons_of_mem _ ha, h4⟩
    · cases hguard : (hasExtension fi.name imageExtensions && s.image.isZero) with
      | false =>
        rw [loop_cons_skip env path fi rest s mt hm hguard] at h
        rcases ih _ _ q mtq h with hl | ⟨a, ha, h4⟩
        · left; exact hl
        · right; exact ⟨a, List.mem_cons_of_mem _ ha, h4⟩
      | true =>
        cases hd : env.decodeImage (joinPath path fi.name) with
        | error e =>
          rw [loop_cons_image_err env path fi rest s mt e hm hguard hd] at h
          simp at h
        | ok img =>
          rw [loop_cons_image_ok env path fi rest s mt img hm hguard hd] at h
          rcases ih _ _ q mtq h with ⟨h1, h2, h3⟩ | ⟨a, ha, h4⟩
          · right
            exact ⟨fi, List.mem_cons_self _ _, (Bool.and_eq_true_iff.mp hguard).1,
              h1, h2, h3⟩
          · right; exact ⟨a, List.mem_cons_of_mem _ ha, h4⟩

theorem readImageFiles_ok_inv (env : Env) (path : String) (files : List FileInfo)
    (p : Post) (h : readImageFiles env path files = .ok p) :
    ∃ q mt1, readImageLoop env path files Post.empty 0 = .ok (q, mt1) ∧
      p.original = q.original ∧ p.file = q.file ∧ p.image = q.image ∧
      q.original ≠ "" ∧
      ((q.meta.posted = 0 ∧ p.meta = { q.meta with posted := mt1 }) ∨
       (q.meta.posted ≠ 0 ∧ p.meta = q.meta)) := by
  simp only [readImageFiles] at h
  by_cases hlen : (files.length == 0) = true
  · rw [if_pos hlen] at h; simp at h
  · rw [if_neg hlen] at h
    cases hl : readImageLoop env path files Post.empty 0 with
    | error e => rw [hl] at h; simp at h
    | ok qm =>
      obtain ⟨q, mt1⟩ := qm
      rw [hl] at h
      refine ⟨q, mt1, rfl, ?_⟩
      by_cases hp : (q.meta.posted == 0) = true
      · simp only [hp, if_true] at h
        by_cases ho : (q.original == "") = true
        · simp only [ho, if_true] at h; simp at h
        · simp only [ho, Bool.false_eq_true, if_false, Except.ok.injEq] at h
          subst h
          refine ⟨rfl, rfl, rfl, by simpa using ho, Or.inl ⟨by simpa using hp, rfl⟩⟩
      · simp only [hp, Bool.false_eq_true, if_false] at h
        by_cases ho : (q.original == "") = true
        · simp only [ho, if_true] at h; simp at h
        · simp only [ho, Bool.false_eq_true, if_false, Except.ok.injEq] at h
          subst h
          refine ⟨rfl, rfl, rfl, by simpa using ho, Or.inr ⟨by simpa using hp, rfl⟩⟩

/-- C6 (confirmed): for every post folder listing processed by
`ReadImage`, an empty listing fails with the "no child files found" error,
and a non-empty listing containing no file with a recognized image
extension (with any metadata file reading successfully) fails with the
"no images found" error; both cases are errors, so no Post is returned. -/
theorem readImage_empty_or_no_image (env : Env) (path : String)
    (files : List FileInfo) :
    (files = [] → readImageFiles env path files = .error (.noChildFiles path)) ∧
    (files ≠ [] →
      (∀ fi ∈ files, hasExtension fi.name imageExtensions = false) →
      (∀ fi ∈ files, fi.name = discoveryFileMeta →
        ∃ m, env.readYAML (joinPath path fi.name) = .ok m) →
      readImageFiles env path files = .error (.noImagesFound path)) := by
  constructor
  · rintro rfl; rfl
  · intro hne h1 h2
    obtain ⟨q, hq, ho, _, _⟩ := loopNoImage env path files Post.empty 0 h1 h2
    have hlen : (files.length == 0) = false := by
      rw [beq_eq_false_iff_ne]
      intro hc
      exact hne (List.length_eq_zero.mp hc)
    have ho2 : q.original = "" := ho
    simp only [readImageFiles, hlen, Bool.false_eq_true, if_false, hq]
    by_cases hp : (q.meta.posted == 0) = true
    · simp [hp, ho2]
    · simp only [hp, Bool.false_eq_true, if_false]
      simp [ho2]

/-- C6 (witness): the empty listing and the all-text listing both fail
with the claimed errors. -/
theorem readImage_empty_or_no_image_witness :
    readImageFiles exEnv "p" [] = .error (.noChildFiles "p") ∧
    readImageFiles exEnv "p" [⟨"a.txt", 3⟩] = .error (.noImagesFound "p") := by
  constructor
  · exact (readImage_empty_or_no_image exEnv "p" []).1 rfl
  · exact (readImage_empty_or_no_image exEnv "p" [⟨"a.txt", 3⟩]).2 (by simp)
      (by decide) (fun fi _ _ => ⟨meta9, rfl⟩)

/-- C4 (confirmed): for every listing from which `ReadImage` produces a
Post, if a metadata file is present and its YAML carries a non-zero posted
timestamp then `Meta.Posted` equals that timestamp exactly; with no
metadata file, or a zero posted value, `Meta.Posted` equals the
modification time of the recognized image file that populated the Post. -/
theorem readImage_posted (env : Env) (path : String) (files : List FileInfo)
    (p : Post) (h : readImageFiles env path files = .ok p) :
    ((∃ fi ∈ files, fi.name = discoveryFileMeta) →
      ∀ m, env.readYAML (joinPath path discoveryFileMeta) = .ok m →
        ((m.posted ≠ 0 → p.meta.posted = m.posted) ∧
         (m.posted = 0 →
           ∃ fi ∈ files, hasExtension fi.name imageExtensions = true ∧
             fi.name = p.file ∧ p.meta.posted = fi.modTime))) ∧
    ((∀ fi ∈ files, fi.name ≠ discoveryFileMeta) →
      ∃ fi ∈ files, hasExtension fi.name imageExtensions = true ∧
        fi.name = p.file ∧ p.meta.posted = fi.modTime) := by
  obtain ⟨q, mt1, hl, hpo, hpf, _, hnem, hcases⟩ :=
    readImageFiles_ok_inv env path files p h
  have htrio := loopTrio env path files Post.empty 0 q mt1 hl
  have himg : p.meta.posted = mt1 →
      ∃ fi ∈ files, hasExtension fi.name imageExtensions = true ∧
        fi.name = p.file ∧ p.meta.posted = fi.modTime := by
    intro hmt
    rcases htrio with ⟨h1, _, _⟩ | ⟨a, ha, hext, _, haf, hamt⟩
    · exact absurd h1 hnem
    · exact ⟨a, ha, hext, (hpf.trans haf).symm, hmt.trans hamt⟩
  constructor
  · intro hex m hy
    have hqm : q.meta = m := loopMetaSet env path m hy files Post.empty 0 q mt1 hex hl
    constructor
    · intro hnz
      rcases hcases with ⟨hz, _⟩ | ⟨_, hpm⟩
      · rw [hqm] at hz; exact absurd hz hnz
      · rw [hpm, hqm]
    · intro hz
      rcases hcases with ⟨_, hpm⟩ | ⟨hnz, _⟩
      · exact himg (by rw [hpm])
      · rw [hqm] at hnz; exact absurd hz hnz
  · intro hall
    have hqm : q.meta = Post.empty.meta :=
      loopMetaPreserve env path files Post.empty 0 q mt1 hall hl
    rcases hcases with ⟨_, hpm⟩ | ⟨hnz, _⟩
    · exact himg (by rw [hpm])
    · rw [hqm] at hnz; exact absurd rfl hnz

/-- C4 (witness): a listing with a metadata file carrying posted = 9 and
an image with modification time 5 yields a Post whose posted is 9. -/
theorem readImage_posted_witness :
    readImageFiles exEnv "images/a" [⟨"meta.yml", 1⟩, ⟨"x.jpg", 5⟩] = .ok postA ∧
    postA.meta.posted = meta9.posted := by
  have h0 : readImageFiles exEnv "images/a" [⟨"meta.yml", 1⟩, ⟨"x.jpg", 5⟩] =
      .ok postA := rfl
  have h := (readImage_posted exEnv "images/a" [⟨"meta.yml", 1⟩, ⟨"x.jpg", 5⟩]
    postA h0).1 ⟨⟨"meta.yml", 1⟩, by simp, rfl⟩ meta9 rfl
  exact ⟨h0, h.1 (by decide)⟩

/-- C7 (confirmed): when the listing is a no-image prefix, then a
recognized image (whose decode succeeds with a non-zero image), then any
suffix whose metadata files read successfully, `ReadImage` succeeds and
the Post's `Original`/`File`/`Image` come from that first recognized
image; the files after it — including further recognized images — cannot
change those fields or raise an error, since the result is independent of
them. -/
theorem readImage_first_image (env : Env) (path : String) (xs : List FileInfo)
    (fi : FileInfo) (ys : List FileInfo) (img : Image)
    (hxs : ∀ a ∈ xs, hasExtension a.name imageExtensions = false)
    (hmx : ∀ a ∈ xs, a.name = discoveryFileMeta →
      ∃ m, env.readYAML (joinPath path a.name) = .ok m)
    (hmy : ∀ a ∈ ys, a.name = discoveryFileMeta →
      ∃ m, env.readYAML (joinPath path a.name) = .ok m)
    (hext : hasExtension fi.name imageExtensions = true)
    (hdec : env.decodeImage (joinPath path fi.name) = .ok img)
    (hz : img.isZero = false) :
    ∃ p, readImageFiles env path (xs ++ fi :: ys) = .ok p ∧
      p.original = joinPath path fi.name ∧ p.file = fi.name ∧ p.image = img := by
  have hmfi : fi.name ≠ discoveryFileMeta := by
    intro hc
    rw [hc, metaNotImage] at hext
    exact Bool.false_ne_true hext
  obtain ⟨q0, hq0, ho0, hf0, hi0⟩ := loopNoImage env path xs Post.empty 0 hxs hmx
  have happ : readImageLoop env path (xs ++ fi :: ys) Post.empty 0 =
      readImageLoop env path (fi :: ys) q0 0 := by
    rw [readImageLoop_append env path xs (fi :: ys) Post.empty 0, hq0]
  have hguard : (hasExtension fi.name imageExtensions && q0.image.isZero) = true := by
    rw [hext, hi0]; rfl
  have hstep := loop_cons_image_ok env path fi ys q0 0 img hmfi hguard hdec
  obtain ⟨q, hq, hoq, hfq, hiq⟩ := loopImageSet env path ys
    ({ q0 with original := joinPath path fi.name, file := fi.name, image := img })
    fi.modTime hz hmy
  have hfinal : readImageLoop env path (xs ++ fi :: ys) Post.empty 0 =
      .ok (q, fi.modTime) := by rw [happ, hstep, hq]
  have hlen : ((xs ++ fi :: ys).length == 0) = false := by simp
  have hone : q.original = joinPath path fi.name := hoq
  have hfile : q.file = fi.name := hfq
  have himg2 : q.image = img := hiq
  have hob : (q.original == "") = false :=
    beq_eq_false_iff_ne.mpr (by rw [hone]; exact joinPath_ne_empty path fi.name)
  by_cases hp : (q.meta.posted == 0) = true
  · refine ⟨{ q with meta := { q.meta with posted := fi.modTime } }, ?_, hone, hfile, himg2⟩
    simp only [readImageFiles, hlen, Bool.false_eq_true, if_false, hfinal, hp,
      if_true]
    simp [hob]
  · refine ⟨q, ?_, hone, hfile, himg2⟩
    simp only [readImageFiles, hlen, Bool.false_eq_true, if_false, hfinal, hp,
      if_true]
    simp [hob]

/-- C7 (witness): a listing with a text file, then `x.jpg`, then a second
recognized image `z.jpg`, succeeds with the Post populated from `x.jpg`. -/
theorem readImage_first_image_witness :
    readImageFiles exEnv "images/a" [⟨"n.txt", 1⟩, ⟨"x.jpg", 5⟩, ⟨"z.jpg", 9⟩] =
      .ok postA5 ∧
    postA5.original = joinPath "images/a" "x.jpg" ∧
    postA5.file = "x.jpg" ∧ postA5.image = img23 := by
  obtain ⟨p, hp, h1, h2, h3⟩ := readImage_first_image exEnv "images/a"
    [⟨"n.txt", 1⟩] ⟨"x.jpg", 5⟩ [⟨"z.jpg", 9⟩] img23
    (by decide) (fun a _ _ => ⟨meta9, rfl⟩) (fun a _ _ => ⟨meta9, rfl⟩)
    (by decide) rfl (by decide)
  simp only [List.cons_append, List.nil_append] at hp
  have hpp : readImageFiles exEnv "images/a"
      [⟨"n.txt", 1⟩, ⟨"x.jpg", 5⟩, ⟨"z.jpg", 9⟩] = .ok postA5 := rfl
  rw [hpp] at hp
  injection hp with he
  subst he
  exact ⟨hpp, h1, h2, h3⟩

theorem loopComm (env : Env) (path : String) (fm : FileInfo) (mv : Meta)
    (hfm : fm.name = discoveryFileMeta)
    (hy : env.readYAML (joinPath path fm.name) = .ok mv) :
    ∀ (xs : List FileInfo) (ys : List FileInfo) (s : Post) (mt : Nat),
      (∀ a ∈ xs, a.name ≠ discoveryFileMeta) →
      readImageLoop env path (xs ++ fm :: ys) s mt =
        readImageLoop env path (fm :: (xs ++ ys)) s mt := by
  intro xs
  induction xs with
  | nil => intro ys s mt _; rfl
  | cons a xs ih =>
    intro ys s mt hno
    have ha : a.name ≠ discoveryFileMeta := hno a (List.mem_cons_self _ _)
    have hno2 : ∀ b ∈ xs, b.name ≠ discoveryFileMeta :=
      fun b hb => hno b (List.mem_cons_of_mem _ hb)
    simp only [List.cons_append]
    cases hguard : (hasExtension a.name imageExtensions && s.image.isZero) with
    | false =>
      rw [loop_cons_skip env path a (xs ++ fm :: ys) s mt ha hguard,
        ih ys s mt hno2,
        loop_cons_meta_ok env path fm (xs ++ ys) s mt mv hfm hy,
        loop_cons_meta_ok env path fm (a :: (xs ++ ys)) s mt mv hfm hy,
        loop_cons_skip env path a (xs ++ ys) ({ s with meta := mv }) mt ha hguard]
    | true =>
      cases hd : env.decodeImage (joinPath path a.name) with
      | error e =>
        rw [loop_cons_image_err env path a (xs ++ fm :: ys) s mt e ha hguard hd,
          loop_cons_meta_ok env path fm (a :: (xs ++ ys)) s mt mv hfm hy,
          loop_cons_image_err env path a (xs ++ ys) ({ s with meta := mv }) mt e
            ha hguard hd]
      | ok img =>
        rw [loop_cons_image_ok env path a (xs ++ fm :: ys) s mt img ha hguard hd,
          ih ys _ a.modTime hno2,
          loop_cons_meta_ok env path fm (xs ++ ys) _ a.modTime mv hfm hy,
          loop_cons_meta_ok env path fm (a :: (xs ++ ys)) s mt mv hfm hy,
          loop_cons_image_ok env path a (xs ++ ys) ({ s with meta := mv }) mt img
            ha hguard hd]

/-- C10 (confirmed): the Post read from a folder is independent of where
the metadata file appears in the listing relative to the image files:
moving the metadata file from anywhere after a meta-free prefix to the
front of the listing yields the identical `ReadImage` result — same
`Original`, `File`, `Image` and `Meta`, including the posted default,
which is applied only after the whole listing is processed. -/
theorem readImage_meta_position (env : Env) (path : String)
    (xs ys : List FileInfo) (fm : FileInfo) (mv : Meta)
    (hfm : fm.name = discoveryFileMeta)
    (hxs : ∀ a ∈ xs, a.name ≠ discoveryFileMeta)
    (hy : env.readYAML (joinPath path fm.name) = .ok mv) :
    readImageFiles env path (xs ++ fm :: ys) =
      readImageFiles env path (fm :: (xs ++ ys)) := by
  have hcomm := loopComm env path fm mv hfm hy xs ys Post.empty 0 hxs
  have hlen1 : ((xs ++ fm :: ys).length == 0) = false := by simp
  have hlen2 : ((fm :: (xs ++ ys)).length == 0) = false := by simp
  simp only [readImageFiles, hlen1, hlen2, Bool.false_eq_true, if_false, hcomm]

/-- C10 (witness): listing the image before the metadata file gives the
same result as listing the metadata file first. -/
theorem readImage_meta_position_witness :
    readImageFiles exEnv "images/a" [⟨"x.jpg", 5⟩, ⟨"meta.yml", 1⟩] =
      readImageFiles exEnv "images/a" [⟨"meta.yml", 1⟩, ⟨"x.jpg", 5⟩] := by
  have h := readImage_meta_position exEnv "images/a" [⟨"x.jpg", 5⟩] []
    ⟨"meta.yml", 1⟩ meta9 rfl (by decide) rfl
  simpa using h

theorem renderPages_none (env : Env) (cfg : Config) (frs : List String)
    (posts : List Post) :
    ∀ (pages : List String) (acts : List Action),
      renderPages env cfg frs posts pages = (acts, none) →
      acts = pages.map (fun pagePath =>
        Action.writeTemplate (joinPath cfg.output (basename pagePath))
          { config := cfg, posts := posts, post := Post.empty,
            previous := Post.empty, next := Post.empty }) := by
  intro pages
  induction pages with
  | nil =>
    intro acts h
    simp only [renderPages, Prod.mk.injEq] at h
    exact h.1.symm
  | cons pg rest ih =>
    intro acts h
    simp only [renderPages] at h
    cases hc : compileTemplate env pg frs with
    | error e => rw [hc] at h; simp at h
    | ok tpl =>
      rw [hc] at h
      dsimp only at h
      cases hw : env.write (joinPath cfg.output (basename pg)) with
      | error e => rw [hw] at h; simp at h
      | ok u =>
        rw [hw] at h
        dsimp only at h
        cases hr : renderPages env cfg frs posts rest with
        | mk acts2 res =>
          rw [hr] at h
          simp only [Prod.mk.injEq] at h
          obtain ⟨h1, h2⟩ := h
          subst h2
          rw [← h1, List.map_cons, ih acts2 hr]

theorem renderPosts_none (env : Env) (cfg : Config) (all : List Post) :
    ∀ (rest : List Post) (idx : Nat) (acts : List Action),
      renderPosts env cfg all idx rest = (acts, none) →
      acts = postOutputActions cfg all idx rest := by
  intro rest
  induction rest with
  | nil =>
    intro idx acts h
    simp only [renderPosts, Prod.mk.injEq] at h
    exact h.1.symm
  | cons post rest ih =>
    intro idx acts h
    simp only [renderPosts] at h
    cases hm : env.makeDir (joinPath cfg.output post.slug) with
    | error e => rw [hm] at h; simp at h
    | ok u =>
      rw [hm] at h
      dsimp only at h
      cases hw : env.write (joinPath (joinPath cfg.output post.slug) outputFileIndex) with
      | error e => rw [hw] at h; simp at h
      | ok u2 =>
        rw [hw] at h
        dsimp only at h
        cases hcp : env.copy post.original
            (joinPath (joinPath cfg.output post.slug) (basename post.original)) with
        | error e => rw [hcp] at h; simp at h
        | ok u3 =>
          rw [hcp] at h
          dsimp only at h
          cases hr : renderPosts env cfg all (idx + 1) rest with
          | mk acts2 res =>
            rw [hr] at h
            simp only [Prod.mk.injEq] at h
            obtain ⟨h1, h2⟩ := h
            subst h2
            rw [← h1, ih (idx + 1) acts2 hr]
            simp [postOutputActions, postActionsAt]

theorem render_none (env : Env) (cfg : Config) (posts : List Post)
    (acts : List Action) (h : render env cfg posts = (acts, none)) :
    acts = cfg.layout.pages.map (fun pagePath =>
        Action.writeTemplate (joinPath cfg.output (basename pagePath))
          { config := cfg, posts := posts, post := Post.empty,
            previous := Post.empty, next := Post.empty }) ++
      postOutputActions cfg posts 0 posts := by
  simp only [render] at h
  cases hf : readFragmentsList env cfg.layout.fragments with
  | error e => rw [hf] at h; simp at h
  | ok frs =>
    rw [hf] at h
    dsimp only at h
    cases hpg : renderPages env cfg frs posts cfg.layout.pages with
    | mk pacts pres =>
      rw [hpg] at h
      cases pres with
      | some e => simp at h
      | none =>
        dsimp only at h
        cases hct : compileTemplate env cfg.layout.post frs with
        | error e => rw [hct] at h; simp at h
        | ok tpl =>
          rw [hct] at h
          dsimp only at h
          cases hrp : renderPosts env cfg posts 0 posts with
          | mk a2 r2 =>
            rw [hrp] at h
            simp only [Prod.mk.injEq] at h
            obtain ⟨h1, h2⟩ := h
            subst h2
            rw [← h1, renderPages_none env cfg frs posts cfg.layout.pages pacts hpg,
              renderPosts_none env cfg posts posts 0 a2 hrp]

/-- C8 (confirmed): a successful `Render` writes exactly, in order: each
configured page to `<output>/<page-basename>` against the full post
sequence, then for each post the slug directory, the rendered post page at
`<output>/<slug>/index.html`, and a copy of the original image at
`<output>/<slug>/<original-basename>`, where the slug is `Post.Slug()`. -/
theorem render_output_layout (env : Env) (cfg : Config) (posts : List Post)
    (acts : List Action) (h : render env cfg posts = (acts, none)) :
    acts = cfg.layout.pages.map (fun pagePath =>
        Action.writeTemplate (joinPath cfg.output (basename pagePath))
          { config := cfg, posts := posts, post := Post.empty,
            previous := Post.empty, next := Post.empty }) ++
      postOutputActions cfg posts 0 posts :=
  render_none env cfg posts acts h

/-- C8 (witness): the layout theorem applied to a concrete one-post
render. -/
theorem render_output_layout_witness :
    (render exEnv exCfg [postA5]).1 =
      exCfg.layout.pages.map (fun pagePath =>
        Action.writeTemplate (joinPath exCfg.output (basename pagePath))
          { config := exCfg, posts := [postA5], post := Post.empty,
            previous := Post.empty, next := Post.empty }) ++
      postOutputActions exCfg [postA5] 0 [postA5] :=
  render_output_layout exEnv exCfg [postA5] (render exEnv exCfg [postA5]).1 (by rfl)

theorem postOutputActions_mem (cfg : Config) (all : List Post) :
    ∀ (rest : List Post) (idx k : Nat), k < rest.length →
      ∀ a ∈ postActionsAt cfg all (idx + k) (rest.getD k Post.empty),
        a ∈ postOutputActions cfg all idx rest := by
  intro rest
  induction rest with
  | nil => intro idx k hk; exact absurd hk (by simp)
  | cons post rest ih =>
    intro idx k hk a hmem
    cases k with
    | zero =>
      simp only [postOutputActions]
      apply List.mem_append_left
      simpa using hmem
    | succ k2 =>
      simp only [postOutputActions]
      apply List.mem_append_right
      have hadd : idx + (k2 + 1) = idx + 1 + k2 := by omega
      rw [hadd] at hmem
      exact ih (idx + 1) k2 (by simpa using hk) a (by simpa using hmem)

/-- C5 (confirmed): in a successful `Render` of a post sequence of length
L, the post at each index i is written against a view model whose
`Previous` is the post at i-1 when i > 0 (else the zero post, so index 0
gets the empty Previous) and whose `Next` is the post at i+1 when
i < L-1 (else the zero post, so index L-1 gets the empty Next). -/
theorem render_prev_next (env : Env) (cfg : Config) (posts : List Post)
    (acts : List Action) (i : Nat) (hi : i < posts.length)
    (h : render env cfg posts = (acts, none)) :
    Action.writeTemplate
      (joinPath (joinPath cfg.output (posts.getD i Post.empty).slug) outputFileIndex)
      { config := cfg, posts := [], post := posts.getD i Post.empty,
        previous := if i > 0 then posts.getD (i - 1) Post.empty else Post.empty,
        next := if i < posts.length - 1 then posts.getD (i + 1) Post.empty
          else Post.empty } ∈ acts := by
  rw [render_none env cfg posts acts h]
  apply List.mem_append_right
  have hmem := postOutputActions_mem cfg posts posts 0 i hi
    (Action.writeTemplate
      (joinPath (joinPath cfg.output (posts.getD i Post.empty).slug) outputFileIndex)
      { config := cfg, posts := [], post := posts.getD i Post.empty,
        previous := if i > 0 then posts.getD (i - 1) Post.empty else Post.empty,
        next := if i < posts.length - 1 then posts.getD (i + 1) Post.empty
          else Post.empty })
  apply hmem
  simp only [Nat.zero_add, postActionsAt]
  exact List.mem_cons_of_mem _ (List.mem_cons_self _ _)

/-- C5 (witness): the prev/next theorem applied at index 0 of a one-post
render: both neighbors are the zero post. -/
theorem render_prev_next_witness :
    Action.writeTemplate
      (joinPath (joinPath exCfg.output ([postA5].getD 0 Post.empty).slug)
        outputFileIndex)
      { config := exCfg, posts := [], post := [postA5].getD 0 Post.empty,
        previous := if 0 > 0 then [postA5].getD (0 - 1) Post.empty else Post.empty,
        next := if 0 < [postA5].length - 1 then [postA5].getD (0 + 1) Post.empty
          else Post.empty } ∈ (render exEnv exCfg [postA5]).1 :=
  render_prev_next exEnv exCfg [postA5] (render exEnv exCfg [postA5]).1 0
    (by decide) (by rfl)

/-- C9 (confirmed): `Generate` runs exactly Discovery, output-path
creation, Render, static-asset copy, in that order; the first failing step
aborts immediately with that step's error. In particular a Discovery
failure returns the error with an empty action trace — no posts reach the
later steps — and on success the trace is the render actions followed by
the static-copy actions. -/
theorem generate_pipeline (env : Env) (cfg : Config) :
    (∀ e, discoverPosts env cfg = .error e → generate env cfg = ([], some e)) ∧
    (∀ posts e, discoverPosts env cfg = .ok posts →
      createOutputPath env.statOutput env.mkdirOutput = .error e →
      generate env cfg = ([], some e)) ∧
    (∀ posts acts e, discoverPosts env cfg = .ok posts →
      createOutputPath env.statOutput env.mkdirOutput = .ok () →
      render env cfg posts = (acts, some e) →
      generate env cfg = (acts, some e)) ∧
    (∀ posts acts, discoverPosts env cfg = .ok posts →
      createOutputPath env.statOutput env.mkdirOutput = .ok () →
      render env cfg posts = (acts, none) →
      generate env cfg =
        (acts ++ (copyStatics env cfg cfg.layout.statics).1,
         (copyStatics env cfg cfg.layout.statics).2)) := by
  refine ⟨?_, ?_, ?_, ?_⟩
  · intro e hd
    simp only [generate, hd]
  · intro posts e hd hc
    simp only [generate, hd, hc]
  · intro posts acts e hd hc hr
    simp only [generate, hd, hc, hr]
  · intro posts acts hd hc hr
    cases hcs : copyStatics env cfg cfg.layout.statics with
    | mk a2 r2 => simp only [generate, hd, hc, hr, hcs]

/-- C9 (witness): with an images root whose only post folder is empty,
Discovery fails and `Generate` returns exactly that error with an empty
action trace. -/
theorem generate_pipeline_witness :
    generate exEnvFail exCfg = ([], some (.noChildFiles "images/empty")) := by
  have hd : discoverPosts exEnvFail exCfg = .error (.noChildFiles "images/empty") := by
    have hw : walkVisit "images" exEnvFail.imagesRoot =
        [("images", .dir "images" 0 [.dir "empty" 0 []]),
         ("images/empty", .dir "empty" 0 [])] := by
      simp [walkVisit, walkChildren, exEnvFail, exEnv, joinPath, Entry.name]
    show collectPosts exEnvFail "images" (walkVisit "images" exEnvFail.imagesRoot) = _
    rw [hw]
    rfl
  exact (generate_pipeline exEnvFail exCfg).1 (.noChildFiles "images/empty") hd

theorem joinPath_length (p n : String) :
    (joinPath p n).length = p.length + 1 + n.length := by
  simp only [joinPath, String.length_append]
  rw [show ("/" : String).length = 1 from rfl]

mutual

theorem walkVisit_path_ge (e : Entry) (p q : String) (e2 : Entry)
    (h : (q, e2) ∈ walkVisit p e) : p.length ≤ q.length := by
  cases e with
  | file n t =>
    simp only [walkVisit, List.mem_singleton, Prod.mk.injEq] at h
    rw [h.1]
  | dir n t cs =>
    simp only [walkVisit, List.mem_cons, Prod.mk.injEq] at h
    rcases h with ⟨h1, _⟩ | h
    · rw [h1]
    · exact Nat.le_of_lt (walkChildren_path_gt cs p q e2 h)

theorem walkChildren_path_gt (cs : List Entry) (p q : String) (e2 : Entry)
    (h : (q, e2) ∈ walkChildren p cs) : p.length < q.length := by
  cases cs with
  | nil => simp [walkChildren] at h
  | cons c rest =>
    simp only [walkChildren, List.mem_append] at h
    rcases h with h | h
    · have h2 := walkVisit_path_ge c (joinPath p c.name) q e2 h
      have h3 := joinPath_length p c.name
      omega
    · exact walkChildren_path_gt rest p q e2 h

end

theorem collectPosts_append (env : Env) (r : String) :
    ∀ (l1 l2 : List (String × Entry)) (ps : List Post),
      collectPosts env r (l1 ++ l2) = .ok ps →
      ∃ ps1 ps2, collectPosts env r l1 = .ok ps1 ∧
        collectPosts env r l2 = .ok ps2 ∧ ps = ps1 ++ ps2 := by
  intro l1
  induction l1 with
  | nil => intro l2 ps h; exact ⟨[], ps, rfl, h, rfl⟩
  | cons pe rest ih =>
    intro l2 ps h
    obtain ⟨p, e⟩ := pe
    simp only [List.cons_append, collectPosts] at h
    by_cases hr : (p == r) = true
    · rw [if_pos hr] at h
      obtain ⟨ps1, ps2, h1, h2, h3⟩ := ih l2 ps h
      refine ⟨ps1, ps2, ?_, h2, h3⟩
      simp only [collectPosts, hr, if_true]
      exact h1
    · have hr2 : (p == r) = false := by
        cases hb : (p == r) with
        | false => rfl
        | true => exact absurd hb hr
      rw [hr2] at h
      simp only [Bool.false_eq_true, if_false] at h
      cases e with
      | file n t =>
        obtain ⟨ps1, ps2, h1, h2, h3⟩ := ih l2 ps h
        refine ⟨ps1, ps2, ?_, h2, h3⟩
        simp only [collectPosts, hr2, Bool.false_eq_true, if_false]
        exact h1
      | dir nm mt cs =>
        dsimp only at h
        simp only [List.append_eq] at h
        cases hri : readImage env p (.dir nm mt cs) with
        | error err => rw [hri] at h; simp at h
        | ok post =>
          rw [hri] at h
          dsimp only at h
          cases hcr : collectPosts env r (rest ++ l2) with
          | error err => rw [hcr] at h; simp at h
          | ok ps3 =>
            rw [hcr] at h
            dsimp only at h
            simp only [Except.ok.injEq] at h
            obtain ⟨ps1, ps2, h1, h2, h3⟩ := ih l2 ps3 hcr
            refine ⟨post :: ps1, ps2, ?_, h2, ?_⟩
            · simp only [collectPosts, hr2, Bool.false_eq_true, if_false, hri, h1]
            · rw [← h, h3]
              rfl

mutual

theorem collectVisit_count (env : Env) (r : String) (e : Entry) (p : String)
    (hp : r.length < p.length) (ps : List Post)
    (h : collectPosts env r (walkVisit p e) = .ok ps) :
    ps.length = dirCountEntry e := by
  have hne : (p == r) = false :=
    beq_eq_false_iff_ne.mpr (fun hc => by rw [hc] at hp; omega)
  cases e with
  | file n t =>
    simp only [walkVisit, collectPosts, hne, Bool.false_eq_true, if_false,
      Except.ok.injEq] at h
    rw [← h]
    rfl
  | dir nm mt cs =>
    simp only [walkVisit, collectPosts, hne, Bool.false_eq_true, if_false] at h
    cases hri : readImage env p (.dir nm mt cs) with
    | error err => rw [hri] at h; simp at h
    | ok post =>
      rw [hri] at h
      dsimp only at h
      cases hcc : collectPosts env r (walkChildren p cs) with
      | error err => rw [hcc] at h; simp at h
      | ok ps2 =>
        rw [hcc] at h
        dsimp only at h
        simp only [Except.ok.injEq] at h
        have hlen := collectChildren_count env r cs p (Nat.le_of_lt hp) ps2 hcc
        rw [← h]
        simp only [List.length_cons, dirCountEntry, hlen]
        omega

theorem collectChildren_count (env : Env) (r : String) (cs : List Entry)
    (p : String) (hp : r.length ≤ p.length) (ps : List Post)
    (h : collectPosts env r (walkChildren p cs) = .ok ps) :
    ps.length = dirCountList cs := by
  cases cs with
  | nil =>
    simp only [walkChildren, collectPosts, Except.ok.injEq] at h
    rw [← h]
    rfl
  | cons c rest =>
    rw [walkChildren] at h
    obtain ⟨ps1, ps2, h1, h2, h3⟩ := collectPosts_append env r _ _ ps h
    have hlen := joinPath_length p c.name
    have hc1 := collectVisit_count env r c (joinPath p c.name) (by omega) ps1 h1
    have hc2 := collectChildren_count env r rest p hp ps2 h2
    rw [h3]
    simp only [List.length_append, dirCountList, hc1, hc2]

end

/-- The visit order of the recursive walk over the fixture images root:
the root, the immediate subdirectory `a`, its image, the nested
subdirectory `a/b`, and its image. -/
theorem exWalkEval : walkVisit "images" exEnv.imagesRoot =
    [("images", .dir "images" 0
        [.dir "a" 0 [.file "x.jpg" 5, .dir "b" 0 [.file "y.jpg" 7]]]),
     ("images/a", .dir "a" 0 [.file "x.jpg" 5, .dir "b" 0 [.file "y.jpg" 7]]),
     ("images/a/x.jpg", .file "x.jpg" 5),
     ("images/a/b", .dir "b" 0 [.file "y.jpg" 7]),
     ("images/a/b/y.jpg", .file "y.jpg" 7)] := by
  simp [walkVisit, walkChildren, exEnv, joinPath, Entry.name]

/-- C1 (counterexample): the fixture images root has exactly one immediate
subdirectory (`images/a`), yet `DiscoverPosts` returns two posts: the walk
descended below one level and also read the nested directory `images/a/b`
as a post, contrary to the claim that discovery constructs exactly one
Post per immediate subdirectory and descends no further. -/
theorem discoverPosts_not_one_level :
    immediateSubdirCount exEnv.imagesRoot = 1 ∧
    discoverPosts exEnv exCfg = .ok [postA5, postB7] := by
  constructor
  · rfl
  · show collectPosts exEnv "images" (walkVisit "images" exEnv.imagesRoot) = _
    rw [exWalkEval]
    rfl

/-- C1 (amended): `DiscoverPosts` constructs exactly one Post per
directory at every depth strictly below the images root — the walk is
recursive, so a directory nested below one level is itself read as a post:
whenever discovery succeeds, the number of posts equals the number of
directory nodes in the whole tree under the root, not the number of
immediate subdirectories. -/
theorem discoverPosts_counts_all_depths (env : Env) (cfg : Config)
    (posts : List Post) (h : discoverPosts env cfg = .ok posts) :
    posts.length = dirCountBelow env.imagesRoot := by
  cases henv : env.imagesRoot with
  | file n t =>
    simp only [discoverPosts] at h
    rw [henv] at h
    simp only [walkVisit, collectPosts, beq_self_eq_true, if_true,
      Except.ok.injEq] at h
    rw [← h]
    rfl
  | dir nm mt cs =>
    simp only [discoverPosts] at h
    rw [henv] at h
    simp only [walkVisit, collectPosts, beq_self_eq_true, if_true] at h
    have := collectChildren_count env cfg.images cs cfg.images (Nat.le_refl _)
      posts h
    rw [this]
    rfl

/-- C1 (witness): the amended count theorem applied to the fixture root:
two posts, two directories below the root (one nested). -/
theorem discoverPosts_counts_all_depths_witness :
    ([postA5, postB7] : List Post).length = dirCountBelow exEnv.imagesRoot := by
  have hd : discoverPosts exEnv exCfg = .ok [postA5, postB7] := by
    show collectPosts exEnv "images" (walkVisit "images" exEnv.imagesRoot) = _
    rw [exWalkEval]
    rfl
  exact discoverPosts_counts_all_depths exEnv exCfg [postA5, postB7] hd

end Blogctl
